import Mathlib

/-!
# Easound countdown cue engine — shallow embedding

A shallow embedding of the cue-scheduling core of `src/src/App.jsx`
(an escape-room countdown React component).  React state of the component
(`duration`, `selectedCues`, `timeLeft`, `running`, `trapMessages`) and
its mutable refs (`intervalRef`, `cueScheduleRef`, `playedCuesRef`,
`cueAudioRefs`) are collected into one record `AppState`; every event
handler of the component becomes a pure state-transition function, and
the `useEffect` hook keyed on `[timeLeft, running]` (the cue matcher and
the stop-at-zero logic) becomes `runEffect`, executed after any state
change it observes, per the single-threaded cooperative model: the tick
effect processing completes before the next tick is delivered.

All `play()` calls on audio objects are recorded in `playLog` (the
notification sink); firing a cue means adding its id to `playedCues`
(the FiredSet).
-/

namespace Easound

/-- The digit-string value computed by `parseInt(match[1], 10)` in
`handleStart`: a left fold over decimal digits. -/
def digitsVal (ds : List Char) : Nat :=
  ds.foldl (fun n c => 10 * n + (c.toNat - 48)) 0

/-- The regex match `cueId.match(/^([0-9]+)min$/)` from `handleStart`,
on the character list of the id: the whole string must be one or more
digits followed by `min`; on success returns the numeric value of the digits. -/
def parseMinCue (cs : List Char) : Option Nat :=
  if 3 ≤ cs.length ∧ cs.drop (cs.length - 3) = ['m', 'i', 'n'] then
    let ds := cs.take (cs.length - 3)
    if ds ≠ [] ∧ ds.all Char.isDigit then some (digitsVal ds) else none
  else none

/-- The per-id branch of the schedule-building loop in `handleStart`
(`src/src/App.jsx:59-70`): `blackout ↦ 60`, `gameover ↦ 5`,
`<N>min ↦ N × 60`, anything else produces no schedule entry. -/
def cueTrigger (cueId : String) : Option Int :=
  if cueId = "blackout" then some 60
  else if cueId = "gameover" then some 5
  else (parseMinCue cueId.data).map (fun n => (n : Int) * 60)

/-- The whole schedule-building loop of `handleStart`: one entry per
selected cue id that has a trigger time, in selection order.  The loop
never reads `totalSeconds`. -/
def buildSchedule (selectedCues : List String) : List (String × Int) :=
  selectedCues.filterMap (fun id => (cueTrigger id).map (fun t => (id, t)))

/-- Key lookup in the schedule object (`cueScheduleRef.current[id]`,
read through `Object.entries` iteration). -/
def lookupTrigger (id : String) : List (String × Int) → Option Int
  | [] => none
  | (k, v) :: rest => if k = id then some v else lookupTrigger id rest

/-- The React state and refs of the `App` component, as one record.
`playLog` records every `audio.play()` call (the notification sink). -/
structure AppState where
  duration : Int
  selectedCues : List String
  timeLeft : Int
  running : Bool
  trapMessages : List String
  intervalActive : Bool
  cueSchedule : List (String × Int)
  playedCues : List String
  cueAudioCached : List String
  playLog : List String
  deriving Repr, DecidableEq

/-- The initial state of the component: `useState(60)`, `useState([])`,
`useState(0)`, `useState(false)`, `useState([])`, and empty refs. -/
def initialState : AppState :=
  { duration := 60
    selectedCues := []
    timeLeft := 0
    running := false
    trapMessages := []
    intervalActive := false
    cueSchedule := []
    playedCues := []
    cueAudioCached := []
    playLog := [] }

/-- `handleToggleCue`: remove the id if selected, append it otherwise. -/
def handleToggleCue (s : AppState) (cueId : String) : AppState :=
  if cueId ∈ s.selectedCues then
    { s with selectedCues := s.selectedCues.filter (fun id => id ≠ cueId) }
  else
    { s with selectedCues := s.selectedCues ++ [cueId] }

/-- `handleDurationChange`: commit the numeric input value only when it
is strictly positive. -/
def handleDurationChange (s : AppState) (value : Int) : AppState :=
  if value > 0 then { s with duration := value } else s

/-- The audio-preloading part of the `selectedCues.forEach` loop in
`handleStart`: cache an `Audio` object for each selected id not yet
cached. -/
def preloadAudio (selectedCues cached : List String) : List String :=
  selectedCues.foldl (fun acc id => if id ∈ acc then acc else acc ++ [id]) cached

/-- `handleStart` (`src/src/App.jsx:51-89`): set `running`, capture
`totalSeconds = duration * 60` into `timeLeft`, build the schedule from
the current selection, preload cue audio, play the main track, start the
interval.  Note: it never touches `playedCues` or `trapMessages`, and it
performs no validation of `totalSeconds` and no already-running check. -/
def handleStart (s : AppState) : AppState :=
  { s with
    running := true
    timeLeft := s.duration * 60
    cueSchedule := buildSchedule s.selectedCues
    cueAudioCached := preloadAudio s.selectedCues s.cueAudioCached
    playLog := s.playLog ++ ["main-track.mp3"]
    intervalActive := true }

/-- One iteration of the cue-matching `for` loop
(`src/src/App.jsx:104-120`): fire the cue when `timeLeft === triggerAt`
and it has not been played yet; firing plays the cached audio (if any)
and adds the id to the played set. -/
def cueStep (tl : Int) (st : AppState) (p : String × Int) : AppState :=
  if p.2 = tl ∧ p.1 ∉ st.playedCues then
    { st with
      playedCues := st.playedCues ++ [p.1]
      playLog :=
        if p.1 ∈ st.cueAudioCached then st.playLog ++ [p.1 ++ ".mp3"] else st.playLog }
  else st

/-- The whole cue-matching loop over `Object.entries(cueScheduleRef.current)`,
with `timeLeft` fixed at the value observed by the effect. -/
def cueLoop (entries : List (String × Int)) (tl : Int) (s : AppState) : AppState :=
  entries.foldl (cueStep tl) s

/-- The `useEffect` keyed on `[timeLeft, running]`
(`src/src/App.jsx:92-121`): return early unless running; at
`timeLeft === 0` clear the interval and queue `setRunning(false)`; in
either case run the cue-matching loop at the observed `timeLeft`. -/
def runEffect (s : AppState) : AppState :=
  if s.running then
    cueLoop s.cueSchedule s.timeLeft
      (if s.timeLeft = 0 then { s with intervalActive := false, running := false } else s)
  else s

/-- A clock tick: the `setInterval` callback decrements `timeLeft`, and
the effect then processes the new value.  A tick whose interval has been
cleared is not delivered (HTML timers: a queued task of a cleared timer
aborts), so the state is unchanged. -/
def tick (s : AppState) : AppState :=
  if s.intervalActive then runEffect { s with timeLeft := s.timeLeft - 1 } else s

/-- Pressing Start: `handleStart` followed by the effect observing the
new `timeLeft`/`running` pair. -/
def startOp (s : AppState) : AppState :=
  runEffect (handleStart s)

/-- The `trap_triggered` socket handler (`src/src/App.jsx:127-133`):
append the message to `trapMessages` and play `trap.mp3`, with no regard
to any countdown state. -/
def trapTriggered (s : AppState) (msg : String) : AppState :=
  { s with
    trapMessages := s.trapMessages ++ [msg]
    playLog := s.playLog ++ ["trap.mp3"] }

/-- The events the component reacts to. -/
inductive Event where
  | start : Event
  | tick : Event
  | durationChange : Int → Event
  | toggleCue : String → Event
  | trap : String → Event
  deriving Repr, DecidableEq

/-- Dispatch one event to its handler. -/
def applyEvent (s : AppState) : Event → AppState
  | Event.start => startOp s
  | Event.tick => tick s
  | Event.durationChange v => handleDurationChange s v
  | Event.toggleCue id => handleToggleCue s id
  | Event.trap msg => trapTriggered s msg

/-- Run a sequence of events from a state. -/
def run (s : AppState) (es : List Event) : AppState :=
  es.foldl applyEvent s

/-- The states the component can actually be in during a session. -/
def Reachable (s : AppState) : Prop :=
  ∃ es : List Event, run initialState es = s

/-- The Start button is rendered only while not running
(`src/src/App.jsx:146-196`: the `running ? ... : ...` conditional). -/
def startButtonVisible (s : AppState) : Bool :=
  !s.running

/-- `progressPercent` (`src/src/App.jsx:139`), over the rationals. -/
def progressPercent (s : AppState) : ℚ :=
  if s.running then (1 - (s.timeLeft : ℚ) / ((s.duration : ℚ) * 60)) * 100 else 0

/-- The matcher evaluated at an arbitrary observed `timeLeft` value:
this models the effect running after a clock update that may have
skipped values (coalesced decrements), the boundary case named by the
spec. -/
def observeTimeLeft (s : AppState) (tl : Int) : AppState :=
  runEffect { s with timeLeft := tl }

/-- The matcher evaluated over a whole sequence of observed `timeLeft`
values. -/
def observeRun (s : AppState) (tls : List Int) : AppState :=
  tls.foldl observeTimeLeft s

/-- Cue `id` fires when the effect processes state `s`: the matcher adds
it to the played set right then. -/
def firesAt (s : AppState) (id : String) : Prop :=
  id ∈ (runEffect s).playedCues ∧ id ∉ s.playedCues

/-- Concrete state: Running, `gameover` scheduled at 5, five seconds
remaining. -/
def exGameover5 : AppState :=
  { initialState with
    running := true
    timeLeft := 5
    cueSchedule := [("gameover", 5)] }

/-- Concrete state: Running, `gameover` scheduled at 5. -/
def exGameoverSkip : AppState :=
  { initialState with
    running := true
    cueSchedule := [("gameover", 5)] }

/-- Concrete state: Running, all else initial. -/
def exRunning : AppState :=
  { initialState with running := true }

/-- Concrete state: Running with a live interval and one second left. -/
def exOneSecondLeft : AppState :=
  { initialState with
    running := true
    intervalActive := true
    timeLeft := 1 }

/-- Concrete state: a non-positive configured duration with `gameover`
selected. -/
def exNegDuration : AppState :=
  { initialState with
    duration := -1
    selectedCues := ["gameover"] }

/-- Concrete state: `x` already in the fired set. -/
def exPlayedX : AppState :=
  { initialState with playedCues := ["x"] }

example : parseMinCue "40min".data = some 40 := by decide
example : parseMinCue "min".data = none := by decide
example : parseMinCue "blackout".data = none := by decide
example : cueTrigger "blackout" = some 60 := by decide
example : cueTrigger "gameover" = some 5 := by decide
example : cueTrigger "5min" = some 300 := by decide
example : cueTrigger "bogus" = none := by decide
example :
    buildSchedule ["5min", "bogus", "blackout"] = [("5min", 300), ("blackout", 60)] := by
  decide

/-! ## Helper lemmas about the cue loop and the effect -/

/-- One matcher iteration changes only `playedCues` and `playLog`. -/
theorem cueStep_core (tl : Int) (st : AppState) (p : String × Int) :
    (cueStep tl st p).duration = st.duration ∧
    (cueStep tl st p).selectedCues = st.selectedCues ∧
    (cueStep tl st p).timeLeft = st.timeLeft ∧
    (cueStep tl st p).running = st.running ∧
    (cueStep tl st p).trapMessages = st.trapMessages ∧
    (cueStep tl st p).intervalActive = st.intervalActive ∧
    (cueStep tl st p).cueSchedule = st.cueSchedule ∧
    (cueStep tl st p).cueAudioCached = st.cueAudioCached := by
  unfold cueStep
  split <;> simp

theorem cueLoop_cons (p : String × Int) (rest : List (String × Int)) (tl : Int)
    (s : AppState) : cueLoop (p :: rest) tl s = cueLoop rest tl (cueStep tl s p) := rfl

/-- The whole matcher loop changes only `playedCues` and `playLog`. -/
theorem cueLoop_core (entries : List (String × Int)) (tl : Int) (s : AppState) :
    (cueLoop entries tl s).duration = s.duration ∧
    (cueLoop entries tl s).selectedCues = s.selectedCues ∧
    (cueLoop entries tl s).timeLeft = s.timeLeft ∧
    (cueLoop entries tl s).running = s.running ∧
    (cueLoop entries tl s).trapMessages = s.trapMessages ∧
    (cueLoop entries tl s).intervalActive = s.intervalActive ∧
    (cueLoop entries tl s).cueSchedule = s.cueSchedule ∧
    (cueLoop entries tl s).cueAudioCached = s.cueAudioCached := by
  induction entries generalizing s with
  | nil => simp [cueLoop]
  | cons p rest ih =>
    rw [cueLoop_cons]
    have h1 := cueStep_core tl s p
    have h2 := ih (cueStep tl s p)
    exact ⟨h2.1.trans h1.1, h2.2.1.trans h1.2.1, h2.2.2.1.trans h1.2.2.1,
      h2.2.2.2.1.trans h1.2.2.2.1, h2.2.2.2.2.1.trans h1.2.2.2.2.1,
      h2.2.2.2.2.2.1.trans h1.2.2.2.2.2.1, h2.2.2.2.2.2.2.1.trans h1.2.2.2.2.2.2.1,
      h2.2.2.2.2.2.2.2.trans h1.2.2.2.2.2.2.2⟩

/-- The matcher loop only appends to the played set. -/
theorem cueLoop_played_mono (entries : List (String × Int)) (tl : Int) (s : AppState) :
    s.playedCues <+: (cueLoop entries tl s).playedCues := by
  induction entries generalizing s with
  | nil => exact ⟨[], by simp [cueLoop]⟩
  | cons p rest ih =>
    rw [cueLoop_cons]
    have hstep : s.playedCues <+: (cueStep tl s p).playedCues := by
      unfold cueStep
      split
      · exact ⟨[p.1], rfl⟩
      · exact ⟨[], by simp⟩
    exact hstep.trans (ih (cueStep tl s p))

/-- The played set after one matcher iteration, as a conditional. -/
theorem cueStep_played (tl : Int) (st : AppState) (p : String × Int) :
    (cueStep tl st p).playedCues =
      if p.2 = tl ∧ p.1 ∉ st.playedCues then st.playedCues ++ [p.1]
      else st.playedCues := by
  unfold cueStep
  split
  · next h => simp [h]
  · next h => simp [h]

/-- Membership in the played set after the matcher loop: an id is there
iff it was already played or the loop holds an entry for it at exactly
the observed `timeLeft`. -/
theorem cueLoop_mem_played (entries : List (String × Int)) (tl : Int) (s : AppState)
    (id : String) :
    id ∈ (cueLoop entries tl s).playedCues ↔
      id ∈ s.playedCues ∨ (id, tl) ∈ entries := by
  induction entries generalizing s with
  | nil => simp [cueLoop]
  | cons p rest ih =>
    rw [cueLoop_cons, ih, cueStep_played]
    obtain ⟨a, b⟩ := p
    simp only [List.mem_cons, Prod.mk.injEq]
    by_cases hb : b = tl
    · subst hb
      by_cases ha : a ∈ s.playedCues
      · rw [if_neg (by simp [ha])]
        constructor
        · rintro (h | h)
          · exact Or.inl h
          · exact Or.inr (Or.inr h)
        · rintro (h | ⟨rfl, -⟩ | h)
          · exact Or.inl h
          · exact Or.inl ha
          · exact Or.inr h
      · rw [if_pos ⟨rfl, ha⟩]
        simp only [List.mem_append, List.mem_singleton]
        tauto
    · rw [if_neg (by simp [hb])]
      constructor
      · rintro (h | h)
        · exact Or.inl h
        · exact Or.inr (Or.inr h)
      · rintro (h | ⟨-, h⟩ | h)
        · exact Or.inl h
        · exact absurd h.symm hb
        · exact Or.inr h

/-- The matcher loop keeps the played set duplicate-free. -/
theorem cueLoop_nodup (entries : List (String × Int)) (tl : Int) (s : AppState)
    (h : s.playedCues.Nodup) : (cueLoop entries tl s).playedCues.Nodup := by
  induction entries generalizing s with
  | nil => simpa [cueLoop] using h
  | cons p rest ih =>
    rw [cueLoop_cons]
    refine ih (cueStep tl s p) ?_
    unfold cueStep
    split
    · next hc => simp [List.nodup_append, h, hc.2]
    · exact h

/-- The effect changes neither the schedule nor `timeLeft`, `duration`,
`selectedCues`, `trapMessages`, `cueAudioCached`. -/
theorem runEffect_core (s : AppState) :
    (runEffect s).duration = s.duration ∧
    (runEffect s).selectedCues = s.selectedCues ∧
    (runEffect s).timeLeft = s.timeLeft ∧
    (runEffect s).trapMessages = s.trapMessages ∧
    (runEffect s).cueSchedule = s.cueSchedule ∧
    (runEffect s).cueAudioCached = s.cueAudioCached := by
  unfold runEffect
  split_ifs with hr h0
  · have h := cueLoop_core s.cueSchedule s.timeLeft
      { s with intervalActive := false, running := false }
    exact ⟨h.1, h.2.1, h.2.2.1, h.2.2.2.2.1, h.2.2.2.2.2.2.1, h.2.2.2.2.2.2.2⟩
  · have h := cueLoop_core s.cueSchedule s.timeLeft s
    exact ⟨h.1, h.2.1, h.2.2.1, h.2.2.2.2.1, h.2.2.2.2.2.2.1, h.2.2.2.2.2.2.2⟩
  · exact ⟨rfl, rfl, rfl, rfl, rfl, rfl⟩

/-- The effect only appends to the played set. -/
theorem runEffect_played_mono (s : AppState) :
    s.playedCues <+: (runEffect s).playedCues := by
  unfold runEffect
  split_ifs with hr h0
  · exact cueLoop_played_mono s.cueSchedule s.timeLeft
      { s with intervalActive := false, running := false }
  · exact cueLoop_played_mono s.cueSchedule s.timeLeft s
  · exact ⟨[], by simp⟩

/-- Membership in the played set after the effect: a new id appears iff
the component was running and the schedule triggers it at the current
`timeLeft`. -/
theorem runEffect_mem_played (s : AppState) (id : String) :
    id ∈ (runEffect s).playedCues ↔
      id ∈ s.playedCues ∨ (s.running = true ∧ (id, s.timeLeft) ∈ s.cueSchedule) := by
  unfold runEffect
  split_ifs with hr h0
  · rw [cueLoop_mem_played]; simp [hr]
  · rw [cueLoop_mem_played]; simp [hr]
  · simp [hr]

/-- Processing `timeLeft = 0` while running clears the interval and
ends the run. -/
theorem runEffect_stop (s : AppState) (hr : s.running = true) (h0 : s.timeLeft = 0) :
    (runEffect s).running = false ∧ (runEffect s).intervalActive = false := by
  unfold runEffect
  rw [if_pos hr, if_pos h0]
  have h := cueLoop_core s.cueSchedule s.timeLeft
    { s with intervalActive := false, running := false }
  exact ⟨h.2.2.2.1, h.2.2.2.2.2.1⟩

/-- The effect keeps the played set duplicate-free. -/
theorem runEffect_nodup (s : AppState) (h : s.playedCues.Nodup) :
    (runEffect s).playedCues.Nodup := by
  unfold runEffect
  split_ifs with hr h0
  · exact cueLoop_nodup _ _ _ h
  · exact cueLoop_nodup _ _ _ h
  · exact h

/-! ## Event-level lemmas and reachability invariants -/

/-- No event ever removes anything from the played set. -/
theorem applyEvent_played_mono (s : AppState) (e : Event) :
    s.playedCues <+: (applyEvent s e).playedCues := by
  cases e with
  | start => exact runEffect_played_mono (handleStart s)
  | tick =>
    show s.playedCues <+: (tick s).playedCues
    unfold tick
    split_ifs with hi
    · exact runEffect_played_mono { s with timeLeft := s.timeLeft - 1 }
    · exact ⟨[], by simp⟩
  | durationChange v =>
    show s.playedCues <+: (handleDurationChange s v).playedCues
    unfold handleDurationChange
    split_ifs <;> exact ⟨[], by simp⟩
  | toggleCue id =>
    show s.playedCues <+: (handleToggleCue s id).playedCues
    unfold handleToggleCue
    split_ifs <;> exact ⟨[], by simp⟩
  | trap msg =>
    show s.playedCues <+: (trapTriggered s msg).playedCues
    exact ⟨[], by simp [trapTriggered]⟩

/-- No event ever removes anything from the trap-message log. -/
theorem applyEvent_trap_mono (s : AppState) (e : Event) :
    s.trapMessages <+: (applyEvent s e).trapMessages := by
  cases e with
  | start =>
    show s.trapMessages <+: (startOp s).trapMessages
    rw [startOp, (runEffect_core (handleStart s)).2.2.2.1]
    exact ⟨[], by simp [handleStart]⟩
  | tick =>
    show s.trapMessages <+: (tick s).trapMessages
    unfold tick
    split_ifs with hi
    · rw [(runEffect_core { s with timeLeft := s.timeLeft - 1 }).2.2.2.1]
    · exact ⟨[], by simp⟩
  | durationChange v =>
    show s.trapMessages <+: (handleDurationChange s v).trapMessages
    unfold handleDurationChange
    split_ifs <;> exact ⟨[], by simp⟩
  | toggleCue id =>
    show s.trapMessages <+: (handleToggleCue s id).trapMessages
    unfold handleToggleCue
    split_ifs <;> exact ⟨[], by simp⟩
  | trap msg =>
    show s.trapMessages <+: (trapTriggered s msg).trapMessages
    exact ⟨[msg], rfl⟩

/-- No event changes `duration` except a strictly positive duration
input. -/
theorem applyEvent_duration_pos (s : AppState) (e : Event) (h : 0 < s.duration) :
    0 < (applyEvent s e).duration := by
  cases e with
  | start =>
    show 0 < (startOp s).duration
    rw [startOp, (runEffect_core (handleStart s)).1]
    exact h
  | tick =>
    show 0 < (tick s).duration
    unfold tick
    split_ifs with hi
    · rw [(runEffect_core { s with timeLeft := s.timeLeft - 1 }).1]
      exact h
    · exact h
  | durationChange v =>
    show 0 < (handleDurationChange s v).duration
    unfold handleDurationChange
    split_ifs with hv
    · exact hv
    · exact h
  | toggleCue id =>
    show 0 < (handleToggleCue s id).duration
    unfold handleToggleCue
    split_ifs <;> exact h
  | trap msg => exact h

/-- No event introduces a duplicate into the played set. -/
theorem applyEvent_nodup (s : AppState) (e : Event) (h : s.playedCues.Nodup) :
    (applyEvent s e).playedCues.Nodup := by
  cases e with
  | start => exact runEffect_nodup (handleStart s) h
  | tick =>
    show (tick s).playedCues.Nodup
    unfold tick
    split_ifs with hi
    · exact runEffect_nodup { s with timeLeft := s.timeLeft - 1 } h
    · exact h
  | durationChange v =>
    show (handleDurationChange s v).playedCues.Nodup
    unfold handleDurationChange
    split_ifs <;> exact h
  | toggleCue id =>
    show (handleToggleCue s id).playedCues.Nodup
    unfold handleToggleCue
    split_ifs <;> exact h
  | trap msg => exact h

/-- A property preserved by every event holds after any event sequence. -/
theorem run_preserves {P : AppState → Prop}
    (hP : ∀ (s : AppState) (e : Event), P s → P (applyEvent s e)) :
    ∀ (es : List Event) (s : AppState), P s → P (run s es)
  | [], _, h => h
  | e :: es, s, h => run_preserves hP es (applyEvent s e) (hP s e h)

/-- Unfolding one event off an event sequence. -/
theorem run_cons (s : AppState) (e : Event) (es : List Event) :
    run s (e :: es) = run (applyEvent s e) es := rfl

/-- The played set only grows along any event sequence. -/
theorem run_played_mono (es : List Event) : ∀ s : AppState,
    s.playedCues <+: (run s es).playedCues := by
  induction es with
  | nil => exact fun s => ⟨[], by simp [run]⟩
  | cons e es ih =>
    intro s
    rw [run_cons]
    exact (applyEvent_played_mono s e).trans (ih (applyEvent s e))

/-- In every reachable state the configured duration is positive. -/
theorem reachable_duration_pos (s : AppState) (h : Reachable s) : 0 < s.duration := by
  obtain ⟨es, rfl⟩ := h
  exact run_preserves applyEvent_duration_pos es initialState (by decide)

/-- In every reachable state the played set has no duplicates. -/
theorem reachable_played_nodup (s : AppState) (h : Reachable s) :
    s.playedCues.Nodup := by
  obtain ⟨es, rfl⟩ := h
  exact run_preserves applyEvent_nodup es initialState (by decide)

/-- A selected cue with a trigger time gets its entry in the built
schedule. -/
theorem mem_buildSchedule (sel : List String) (id : String) (t : Int)
    (hsel : id ∈ sel) (ht : cueTrigger id = some t) : (id, t) ∈ buildSchedule sel :=
  List.mem_filterMap.mpr ⟨id, hsel, by simp [ht]⟩

/-- If the only trigger time of a cue is never observed, the cue never enters
the played set, whatever sequence of (possibly skipping) `timeLeft`
values the matcher observes. -/
theorem observeRun_skip (id : String) (t : Int) : ∀ tls : List Int, t ∉ tls →
    ∀ s : AppState, (∀ t2, (id, t2) ∈ s.cueSchedule → t2 = t) → id ∉ s.playedCues →
      id ∉ (observeRun s tls).playedCues := by
  intro tls
  induction tls with
  | nil => exact fun _ s _ hp => hp
  | cons tl tls ih =>
    intro htls s hsched hp
    rw [List.mem_cons, not_or] at htls
    have hstep : id ∉ (observeTimeLeft s tl).playedCues := by
      rw [observeTimeLeft, runEffect_mem_played]
      rintro (h | ⟨-, h⟩)
      · exact hp h
      · exact htls.1 (hsched tl h).symm
    have hsched2 : ∀ t2, (id, t2) ∈ (observeTimeLeft s tl).cueSchedule → t2 = t := by
      intro t2 h2
      refine hsched t2 ?_
      rwa [observeTimeLeft, (runEffect_core _).2.2.2.2.1] at h2
    exact ih htls.2 (observeTimeLeft s tl) hsched2 hstep

/-! ## Schedule-builder lemmas -/

theorem buildSchedule_cons (a : String) (sel : List String) :
    buildSchedule (a :: sel) =
      match cueTrigger a with
      | some t => (a, t) :: buildSchedule sel
      | none => buildSchedule sel := by
  rw [buildSchedule, List.filterMap_cons]
  cases cueTrigger a <;> rfl

/-- The built schedule holds exactly the selected ids that have a
trigger time, each mapped to its trigger time. -/
theorem lookupTrigger_buildSchedule (sel : List String) (id : String) :
    lookupTrigger id (buildSchedule sel) =
      if id ∈ sel then cueTrigger id else none := by
  induction sel with
  | nil => simp [buildSchedule, lookupTrigger]
  | cons a sel ih =>
    rw [buildSchedule_cons]
    by_cases hid : id = a
    · subst hid
      cases ca : cueTrigger id with
      | none =>
        rw [ih]
        by_cases hm : id ∈ sel <;> simp [hm, ca]
      | some t =>
        simp [lookupTrigger, ca]
    · cases ca : cueTrigger a with
      | none =>
        rw [ih]
        by_cases hm : id ∈ sel <;> simp [hm, hid, Ne.symm hid]
      | some t =>
        simp only [lookupTrigger]
        rw [if_neg (fun h => hid h.symm), ih]
        by_cases hm : id ∈ sel <;> simp [hm, hid, Ne.symm hid]

/-- A digit string followed by `min` parses to its numeric value. -/
theorem parseMinCue_digits (ds : List Char) (h1 : ds ≠ [])
    (h2 : ∀ c ∈ ds, c.isDigit = true) :
    parseMinCue (ds ++ ['m', 'i', 'n']) = some (digitsVal ds) := by
  have hlen : (ds ++ ['m', 'i', 'n']).length = ds.length + 3 := by simp
  have hsub : (ds ++ ['m', 'i', 'n']).length - 3 = ds.length := by simp
  unfold parseMinCue
  rw [hsub, if_pos ⟨by simp, by simp⟩, List.take_left]
  rw [if_pos ⟨h1, List.all_eq_true.mpr h2⟩]

/-- C4 helper: which ids get which trigger times. -/
theorem cueTrigger_of_parse (id : String) (n : Nat)
    (h : parseMinCue id.data = some n) : cueTrigger id = some ((n : Int) * 60) := by
  by_cases hb : id = "blackout"
  · subst hb
    simp [show parseMinCue "blackout".data = none from by decide] at h
  · by_cases hg : id = "gameover"
    · subst hg
      simp [show parseMinCue "gameover".data = none from by decide] at h
    · rw [cueTrigger, if_neg hb, if_neg hg, h]
      rfl

theorem cueTrigger_none (id : String) (hb : id ≠ "blackout") (hg : id ≠ "gameover")
    (h : parseMinCue id.data = none) : cueTrigger id = none := by
  rw [cueTrigger, if_neg hb, if_neg hg, h]
  rfl

/-! ## The claims -/

/-- Claim C4. The Schedule Builder maps each selected cue id as follows:
`blackout` to trigger time 60, `gameover` to 5, `<N>min` (`N` one or
more decimal digits) to `N × 60`, and any other id is silently omitted
from the schedule.  The builder never reads `totalSeconds` (its argument
list is the selection alone), so `blackout` keeps trigger time 60 — and
stays in the schedule — for every total duration, including totals below
60 seconds. -/
theorem c4_schedule_builder (sel : List String) (id : String) (n : Nat)
    (ds : List Char) (hds1 : ds ≠ []) (hds2 : ∀ c ∈ ds, c.isDigit = true) :
    lookupTrigger id (buildSchedule sel) =
      (if id ∈ sel then cueTrigger id else none) ∧
    cueTrigger "blackout" = some 60 ∧
    cueTrigger "gameover" = some 5 ∧
    parseMinCue (ds ++ ['m', 'i', 'n']) = some (digitsVal ds) ∧
    (parseMinCue id.data = some n → cueTrigger id = some ((n : Int) * 60)) ∧
    (id ≠ "blackout" → id ≠ "gameover" → parseMinCue id.data = none →
      cueTrigger id = none) :=
  ⟨lookupTrigger_buildSchedule sel id, by decide, by decide,
    parseMinCue_digits ds hds1 hds2, cueTrigger_of_parse id n,
    cueTrigger_none id⟩

/-- Claim C4 witness. Concrete instance: with selection
`["blackout", "5min", "bogus"]`, `5min` is scheduled at 300, `bogus` is
omitted, `blackout` is scheduled at 60; the digit string `40` parses. -/
theorem c4_witness :
    lookupTrigger "5min" (buildSchedule ["blackout", "5min", "bogus"]) =
      (if "5min" ∈ ["blackout", "5min", "bogus"] then cueTrigger "5min" else none) ∧
    parseMinCue (['4', '0'] ++ ['m', 'i', 'n']) = some (digitsVal ['4', '0']) ∧
    cueTrigger "7min" = some ((7 : Nat) * 60 : Int) := by
  have h := c4_schedule_builder ["blackout", "5min", "bogus"] "7min" 7 ['4', '0']
    (by decide) (by decide)
  exact ⟨(c4_schedule_builder ["blackout", "5min", "bogus"] "5min" 7 ['4', '0']
    (by decide) (by decide)).1, h.2.2.2.1, h.2.2.2.2.1 (by decide)⟩

/-- Claim C5. Exact-match firing law: a cue scheduled (uniquely) at
trigger time `t` fires on a matcher pass iff the component is running,
the observed `timeLeft` equals `t` exactly, and the cue has not fired
yet; it never fires when `timeLeft` is `t + 1` or `t − 1`; and over any
sequence of observed `timeLeft` values that skips `t` (a coalescing
clock), the cue never enters the fired set. -/
theorem c5_exact_match (s : AppState) (id : String) (t : Int)
    (hmem : (id, t) ∈ s.cueSchedule)
    (huniq : ∀ t2, (id, t2) ∈ s.cueSchedule → t2 = t) :
    (firesAt s id ↔ s.running = true ∧ s.timeLeft = t ∧ id ∉ s.playedCues) ∧
    (s.timeLeft = t + 1 → ¬ firesAt s id) ∧
    (s.timeLeft = t - 1 → ¬ firesAt s id) ∧
    (∀ tls : List Int, t ∉ tls → id ∉ s.playedCues →
      id ∉ (observeRun s tls).playedCues) := by
  have hiff : firesAt s id ↔
      s.running = true ∧ s.timeLeft = t ∧ id ∉ s.playedCues := by
    unfold firesAt
    rw [runEffect_mem_played]
    constructor
    · rintro ⟨h | ⟨hr, h⟩, hp⟩
      · exact absurd h hp
      · exact ⟨hr, huniq _ h, hp⟩
    · rintro ⟨hr, htl, hp⟩
      exact ⟨Or.inr ⟨hr, by rw [htl]; exact hmem⟩, hp⟩
  refine ⟨hiff, ?_, ?_, fun tls h1 h2 => observeRun_skip id t tls h1 s huniq h2⟩
  · intro h1 hf
    have h2 := (hiff.mp hf).2.1
    omega
  · intro h1 hf
    have h2 := (hiff.mp hf).2.1
    omega

/-- Claim C5 witness. `gameover` scheduled at 5 fires exactly at an
observed `timeLeft` of 5, and never fires when the observed values skip
5 (here 4, 3, 2, 1, 0). -/
theorem c5_witness :
    firesAt exGameover5 "gameover" ∧
    "gameover" ∉ (observeRun exGameoverSkip [4, 3, 2, 1, 0]).playedCues := by
  have huniq1 : ∀ t2 : Int, ("gameover", t2) ∈ exGameover5.cueSchedule → t2 = 5 := by
    intro t2 h
    simpa [exGameover5] using h
  have h1 := c5_exact_match exGameover5 "gameover" 5 (by decide) huniq1
  have huniq2 : ∀ t2 : Int,
      ("gameover", t2) ∈ exGameoverSkip.cueSchedule → t2 = 5 := by
    intro t2 h
    simpa [exGameoverSkip] using h
  have h2 := c5_exact_match exGameoverSkip "gameover" 5 (by decide) huniq2
  exact ⟨h1.1.mpr ⟨rfl, rfl, by decide⟩,
    h2.2.2.2 [4, 3, 2, 1, 0] (by decide) (by decide)⟩

/-- Claim C3. Within a session, (1) the fired set of every reachable state
is duplicate-free (each cue id is in it at most once), (2) once a cue id
is in the fired set it stays there and never fires again under any
further events, and (3) a cue id enters the fired set only on a matcher
pass where its trigger condition held: the component was running and the
schedule maps the id to the observed `timeLeft`. -/
theorem c3_fires_at_most_once :
    (∀ s : AppState, Reachable s → s.playedCues.Nodup) ∧
    (∀ (s : AppState) (es : List Event) (id : String), id ∈ s.playedCues →
      id ∈ (run s es).playedCues ∧ ¬ firesAt (run s es) id) ∧
    (∀ (s : AppState) (id : String), firesAt s id →
      s.running = true ∧ (id, s.timeLeft) ∈ s.cueSchedule) := by
  refine ⟨reachable_played_nodup, ?_, ?_⟩
  · intro s es id hmem
    have h1 : id ∈ (run s es).playedCues := (run_played_mono es s).subset hmem
    exact ⟨h1, fun hf => hf.2 h1⟩
  · intro s id hf
    obtain ⟨hin, hnot⟩ := hf
    rw [runEffect_mem_played] at hin
    rcases hin with h | ⟨hr, h⟩
    · exact absurd h hnot
    · exact ⟨hr, h⟩

/-- Claim C3 witness. Concrete instances of all three parts. -/
theorem c3_witness :
    (run initialState [Event.toggleCue "gameover"]).playedCues.Nodup ∧
    "x" ∈ (run exPlayedX [Event.tick]).playedCues ∧
    ("gameover", (5 : Int)) ∈ exGameover5.cueSchedule := by
  refine ⟨c3_fires_at_most_once.1 _ ⟨[Event.toggleCue "gameover"], rfl⟩,
    (c3_fires_at_most_once.2.1 exPlayedX [Event.tick] "x" (by decide)).1,
    (c3_fires_at_most_once.2.2 exGameover5 "gameover" ⟨by decide, by decide⟩).2⟩

set_option maxRecDepth 100000 in
/-- Claim C1 (code bug). `handleStart` never clears `playedCuesRef`: after
a full one-minute run in which `gameover` fired at 5 seconds remaining,
pressing Start again leaves the fired set still holding `gameover`
while the new run is already Running — the fired set is not reset to
empty at the start of a new run. -/
theorem c1_fired_set_survives_restart :
    (run initialState ([Event.toggleCue "gameover", Event.durationChange 1,
        Event.start] ++ List.replicate 60 Event.tick)).playedCues = ["gameover"] ∧
    (run initialState ([Event.toggleCue "gameover", Event.durationChange 1,
        Event.start] ++ List.replicate 60 Event.tick)).running = false ∧
    (run initialState ([Event.toggleCue "gameover", Event.durationChange 1,
        Event.start] ++ List.replicate 60 Event.tick ++ [Event.start])).running
      = true ∧
    (run initialState ([Event.toggleCue "gameover", Event.durationChange 1,
        Event.start] ++ List.replicate 60 Event.tick ++ [Event.start])).playedCues
      = ["gameover"] := by
  decide

/-- Claim C2 counterexample. `handleStart` performs no AlreadyRunning
check: with a run in progress (`gameover` selected, one tick elapsed,
`timeLeft = 3599`), pressing Start again is not rejected — it resets
`timeLeft` back to 3600. -/
theorem c2_counterexample :
    (run initialState [Event.toggleCue "gameover", Event.start,
      Event.tick]).running = true ∧
    (startOp (run initialState [Event.toggleCue "gameover", Event.start,
        Event.tick])).timeLeft ≠
      (run initialState [Event.toggleCue "gameover", Event.start,
        Event.tick]).timeLeft := by
  decide

/-- Claim C2 (amended). `start()` invoked while Running is not rejected:
it begins a new run, resetting `timeLeft` to `duration × 60` and
rebuilding the schedule from the current selection; the UI merely
withholds the Start button while Running. -/
theorem c2_amended_no_rejection (s : AppState) (h : s.running = true) :
    startButtonVisible s = false ∧
    (startOp s).timeLeft = s.duration * 60 ∧
    (startOp s).cueSchedule = buildSchedule s.selectedCues := by
  refine ⟨by simp [startButtonVisible, h], ?_, ?_⟩
  · rw [startOp, (runEffect_core (handleStart s)).2.2.1]
    rfl
  · rw [startOp, (runEffect_core (handleStart s)).2.2.2.2.1]
    rfl

/-- Claim C2 witness. The amended behavior at a concrete Running state. -/
theorem c2_witness :
    startButtonVisible exRunning = false ∧
    (startOp exRunning).timeLeft = exRunning.duration * 60 ∧
    (startOp exRunning).cueSchedule = buildSchedule exRunning.selectedCues :=
  c2_amended_no_rejection exRunning rfl

/-- Claim C6. The tick that takes `timeLeft` from 1 to 0 stops the clock
and leaves the run state in the same step (`running = false`,
`intervalActive = false`, `timeLeft = 0`), and once the interval is
cleared a tick — including one already queued when the interval was
cleared — is not delivered and changes nothing at all. -/
theorem c6_stop_at_zero (s : AppState) (hr : s.running = true)
    (hi : s.intervalActive = true) (ht : s.timeLeft = 1) :
    (tick s).timeLeft = 0 ∧ (tick s).running = false ∧
    (tick s).intervalActive = false ∧
    (∀ u : AppState, u.intervalActive = false → tick u = u) := by
  have htick : tick s = runEffect { s with timeLeft := s.timeLeft - 1 } := by
    unfold tick
    rw [if_pos hi]
  have h0 : ({ s with timeLeft := s.timeLeft - 1 } : AppState).timeLeft = 0 := by
    simp [ht]
  have hstop := runEffect_stop { s with timeLeft := s.timeLeft - 1 } hr h0
  have hcore := runEffect_core { s with timeLeft := s.timeLeft - 1 }
  refine ⟨?_, ?_, ?_, ?_⟩
  · rw [htick, hcore.2.2.1]
    exact h0
  · rw [htick]
    exact hstop.1
  · rw [htick]
    exact hstop.2
  · intro u hu
    unfold tick
    rw [if_neg (by simp [hu])]

/-- Claim C6 witness. At a concrete Running state with one second left,
the tick finishes the run, and the queued next tick is a no-op. -/
theorem c6_witness :
    (tick exOneSecondLeft).running = false ∧
    (tick exOneSecondLeft).intervalActive = false ∧
    tick (tick exOneSecondLeft) = tick exOneSecondLeft := by
  have h := c6_stop_at_zero exOneSecondLeft rfl rfl rfl
  exact ⟨h.2.1, h.2.2.1, h.2.2.2 _ h.2.2.1⟩

/-- Claim C7 counterexample. `handleStart` performs no InvalidConfig
check: invoked with `duration = -1` (`totalSeconds = -60 ≤ 0`) it is not
rejected — the Controller leaves Idle (`running = true`), the clock is
started, the schedule is built, and `timeLeft` is set to −60. -/
theorem c7_counterexample :
    exNegDuration.duration * 60 ≤ 0 ∧
    (startOp exNegDuration).running = true ∧
    (startOp exNegDuration).intervalActive = true ∧
    (startOp exNegDuration).cueSchedule = [("gameover", 5)] ∧
    (startOp exNegDuration).timeLeft = -60 := by
  decide

/-- Claim C7 (amended). A non-positive `totalSeconds` is rejected not at
`start()` but upstream: `handleDurationChange` ignores non-positive
values, so every reachable state has a positive duration and `start()`
always captures `totalSeconds = duration × 60 ≥ 60`; `handleStart`
itself contains no validation. -/
theorem c7_invalid_config_unreachable (s : AppState) (h : Reachable s) :
    0 < s.duration ∧ 60 ≤ (handleStart s).timeLeft ∧
    (∀ v : Int, v ≤ 0 → (handleDurationChange s v).duration = s.duration) := by
  have hd := reachable_duration_pos s h
  refine ⟨hd, ?_, ?_⟩
  · show 60 ≤ s.duration * 60
    omega
  · intro v hv
    unfold handleDurationChange
    rw [if_neg (by omega)]

/-- Claim C7 witness. The amended statement at the initial state. -/
theorem c7_witness :
    0 < initialState.duration ∧ 60 ≤ (handleStart initialState).timeLeft ∧
    (handleDurationChange initialState (-5)).duration = initialState.duration := by
  have h := c7_invalid_config_unreachable initialState ⟨[], rfl⟩
  exact ⟨h.1, h.2.1, h.2.2 (-5) (by omega)⟩

/-- Claim C8. A trap event, in any state whatsoever, appends its message
to the end of the trap-message log and invokes the notification sink
(`trap.mp3` is played); and no event — in particular not `start` and not
the tick that ends a run — ever removes anything from the log: it only
grows across the whole session. -/
theorem c8_trap_log (s : AppState) (msg : String) :
    (trapTriggered s msg).trapMessages = s.trapMessages ++ [msg] ∧
    (trapTriggered s msg).playLog = s.playLog ++ ["trap.mp3"] ∧
    (∀ (u : AppState) (e : Event), u.trapMessages <+: (applyEvent u e).trapMessages) :=
  ⟨rfl, rfl, applyEvent_trap_mono⟩

set_option maxRecDepth 100000 in
/-- Claim C9 counterexample. After a completed run in which `1min` (whose
trigger time 60 equals `totalSeconds` for a one-minute duration) fired
at start, pressing Start again does not fire it: the fired set and the
play log show no cue activity at the second start, although the cue is
selected and its trigger time still equals `totalSeconds`. -/
theorem c9_counterexample :
    (let s2 := run initialState ([Event.toggleCue "1min",
      Event.durationChange 1, Event.start] ++ List.replicate 60 Event.tick);
    "1min" ∈ s2.selectedCues ∧
    cueTrigger "1min" = some (s2.duration * 60) ∧
    s2.running = false ∧
    (startOp s2).playedCues = s2.playedCues ∧
    (startOp s2).playLog = s2.playLog ++ ["main-track.mp3"]) := by
  decide

/-- Claim C9 (amended). The matcher evaluates the initial `timeLeft` set
by `start()`: a selected cue whose trigger time equals
`totalSeconds = duration × 60` and which is not already in the
session-persistent fired set fires immediately at start, while
`timeLeft` still equals `totalSeconds` (before the first decrement). -/
theorem c9_fires_at_start (s : AppState) (id : String)
    (hsel : id ∈ s.selectedCues) (ht : cueTrigger id = some (s.duration * 60))
    (hp : id ∉ s.playedCues) :
    firesAt (handleStart s) id ∧ id ∈ (startOp s).playedCues ∧
    (startOp s).timeLeft = s.duration * 60 := by
  have hmem : id ∈ (startOp s).playedCues := by
    rw [startOp, runEffect_mem_played]
    refine Or.inr ⟨rfl, ?_⟩
    show (id, s.duration * 60) ∈ buildSchedule s.selectedCues
    exact mem_buildSchedule s.selectedCues id (s.duration * 60) hsel ht
  refine ⟨⟨hmem, hp⟩, hmem, ?_⟩
  rw [startOp, (runEffect_core (handleStart s)).2.2.1]
  rfl

/-- Claim C9 witness. Selecting `1min` with a one-minute duration fires
the cue at the moment Start is pressed. -/
theorem c9_witness :
    firesAt (handleStart (run initialState [Event.toggleCue "1min",
      Event.durationChange 1])) "1min" ∧
    "1min" ∈ (startOp (run initialState [Event.toggleCue "1min",
      Event.durationChange 1])).playedCues := by
  have h := c9_fires_at_start
    (run initialState [Event.toggleCue "1min", Event.durationChange 1]) "1min"
    (by decide) (by decide) (by decide)
  exact ⟨h.1, h.2.1⟩

/-- Claim C10. The configured duration starts at 60 minutes; the only
mutation, `handleDurationChange`, commits a value exactly when it is
positive; hence every reachable state has a positive duration,
`totalSeconds = duration × 60` as captured by `start()` is at least 60,
and the denominator `duration × 60` of `progressPercent` is never 0. -/
theorem c10_duration_always_positive (s : AppState) (h : Reachable s) :
    initialState.duration = 60 ∧ 0 < s.duration ∧
    (∀ (u : AppState) (v : Int), 0 < v → (handleDurationChange u v).duration = v) ∧
    (∀ (u : AppState) (v : Int), ¬ 0 < v → handleDurationChange u v = u) ∧
    60 ≤ s.duration * 60 ∧ ((s.duration : ℚ) * 60) ≠ 0 := by
  have hd := reachable_duration_pos s h
  refine ⟨rfl, hd, ?_, ?_, by omega, ?_⟩
  · intro u v hv
    unfold handleDurationChange
    rw [if_pos hv]
  · intro u v hv
    unfold handleDurationChange
    rw [if_neg hv]
  · have h0 : (0 : ℚ) < (s.duration : ℚ) * 60 := by
      have : (0 : ℚ) < (s.duration : ℚ) := by exact_mod_cast hd
      linarith
    exact ne_of_gt h0

/-- Claim C10 witness. The invariant at the initial state. -/
theorem c10_witness :
    0 < initialState.duration ∧ ((initialState.duration : ℚ) * 60) ≠ 0 := by
  have h := c10_duration_always_positive initialState ⟨[], rfl⟩
  exact ⟨h.2.1, h.2.2.2.2.2⟩

end Easound
